import Mathlib

/-!
Verification of the CoinAfrique scraping pipeline.

This file gives a shallow embedding of the two components the specification
talks about:

* `clean_beautifulsoup_data` from `src/utils/data_cleaner.py`, embedded over a
  small pandas-like `DataFrame` model (cells are strings, floats or NaN;
  floats are modelled exactly as rationals);
* `scrape_page` / `scrape_category` from `src/scraper/beautifulsoup_scraper.py`,
  embedded over an abstract network/DOM oracle, with Python exceptions
  modelled as `Except` and the performed network requests logged explicitly.

All definitions are executable, so concrete scenarios can be settled with
`decide`.
-/

namespace Scraping

/-- A pandas cell: a string, a float (modelled exactly as `ℚ`), or a missing
value (`None` / `NaN`, both of which pandas treats as NA). -/
inductive Cell where
  | null
  | str (s : String)
  | num (q : ℚ)
deriving DecidableEq

/-- A pandas DataFrame as used by the cleaner: named columns, and rows carrying
their pandas index label together with one cell per column. -/
@[ext] structure DataFrame where
  cols : List String
  rows : List (Nat × List Cell)
deriving DecidableEq

/-- Pandas `df.empty`: true when the frame has no rows (or no columns at all). -/
def dfEmpty (d : DataFrame) : Bool :=
  d.rows.isEmpty || d.cols.isEmpty

/-- Membership test `c in df.columns`. -/
def hasCol (d : DataFrame) (c : String) : Bool :=
  d.cols.contains c

/-- Position of column `c` (meaningful only when `hasCol d c`). -/
def colIdx (d : DataFrame) (c : String) : Nat :=
  d.cols.findIdx (· == c)

/-- Cell of a row at a column position (missing positions read as NA). -/
def getCell (r : List Cell) (i : Nat) : Cell :=
  r.getD i Cell.null

/-- Pandas `df[mask]`: boolean-mask row filtering; keeps index labels. -/
def filterRows (d : DataFrame) (p : List Cell → Bool) : DataFrame :=
  ⟨d.cols, d.rows.filter (fun r => p r.2)⟩

/-- Pandas `df[c] = vals`: column assignment, positionally aligned; replaces the
column if present, otherwise appends it as the last column. -/
def setCol (d : DataFrame) (c : String) (vals : List Cell) : DataFrame :=
  if hasCol d c then
    ⟨d.cols, d.rows.zipWith (fun r v => (r.1, r.2.set (colIdx d c) v)) vals⟩
  else
    ⟨d.cols ++ [c], d.rows.zipWith (fun r v => (r.1, r.2 ++ [v])) vals⟩

/-- Pandas `df.drop(c, axis=1)`. -/
def dropCol (d : DataFrame) (c : String) : DataFrame :=
  if hasCol d c then
    ⟨d.cols.eraseIdx (colIdx d c), d.rows.map (fun r => (r.1, r.2.eraseIdx (colIdx d c)))⟩
  else d

/-- Pandas `df[[cs]]`: column projection (each name of `cs` assumed present). -/
def selectCols (d : DataFrame) (cs : List String) : DataFrame :=
  ⟨cs, d.rows.map (fun r => (r.1, cs.map (fun c => getCell r.2 (colIdx d c))))⟩

/-- Pandas `df.reset_index(drop=True)`. -/
def resetIndex (d : DataFrame) : DataFrame :=
  ⟨d.cols, (List.range d.rows.length).zip (d.rows.map (·.2))⟩

/-- Well-formedness: each row has exactly one cell per column. -/
def Wf (d : DataFrame) : Prop :=
  ∀ r ∈ d.rows, r.2.length = d.cols.length

instance decidableWf (d : DataFrame) : Decidable (Wf d) :=
  inferInstanceAs (Decidable (∀ r ∈ d.rows, r.2.length = d.cols.length))

/-- The four pipeline columns, in source order (`columns_to_keep`). -/
def stdCols : List String := ["nom", "prix", "adresse", "image_lien"]

/-! ### Pythonic string primitives used by the cleaner -/

/-- Python `str(x)` as applied by `.astype(str)`: NA prints as `"nan"`. -/
def astypeStrCell : Cell → List Char
  | Cell.null => "nan".data
  | Cell.str s => s.data
  | Cell.num q => (toString q).data

/-- Python `str.lower()` restricted to the alphabets that occur in the data:
ASCII letters plus the Latin-1 accented uppercase block. -/
def pyLowerChar (c : Char) : Char :=
  if 'A' ≤ c ∧ c ≤ 'Z' then Char.ofNat (c.toNat + 32)
  else if 0xC0 ≤ c.toNat ∧ c.toNat ≤ 0xDE ∧ c.toNat ≠ 0xD7 then Char.ofNat (c.toNat + 32)
  else c

def pyLower (l : List Char) : List Char := l.map pyLowerChar

/-- Python `needle in hay` on strings: substring containment. -/
def containsSub (hay needle : List Char) : Bool :=
  hay.tails.any (fun t => List.isPrefixOf needle t)

/-- The step-2 keyword list, exactly as in the source. -/
def keywords : List (List Char) :=
  ["demande", "négociable", "contacter", "appeler"].map String.data

/-- Step-1 row predicate: `df['nom'].notna() & (df['nom'].str.len() > 0)`
(`.str.len()` is NA, hence not `> 0`, on non-string cells). -/
def nomOkCell : Cell → Bool
  | Cell.str s => s.length > 0
  | _ => false

/-- Step-2 row predicate: `not any(keyword in x for keyword in keywords)`
where `x` is the lower-cased `str()` of the price cell. -/
def prixKeywordFree (c : Cell) : Bool :=
  ! keywords.any (fun k => containsSub (pyLower (astypeStrCell c)) k)

/-- Pandas `.str.replace(' ', '')`. -/
def stripSpaces (l : List Char) : List Char := l.filter (fun c => c ≠ ' ')

/-- Pandas `.str.replace('CFA', '')`: remove occurrences left to right. -/
def stripCFA : List Char → List Char
  | [] => []
  | 'C' :: 'F' :: 'A' :: rest => stripCFA rest
  | c :: rest => c :: stripCFA rest

/-- Numeric value of a digit run. -/
def digitsVal (l : List Char) : Nat :=
  l.foldl (fun a c => a * 10 + (c.toNat - 48)) 0

/-- Python `re.findall(r'\d+', x)[0]` (as a number), `None` when there is no digit. -/
def firstDigitRun : List Char → Option Nat
  | [] => none
  | c :: rest =>
    if c.isDigit then some (digitsVal (c :: rest.takeWhile Char.isDigit))
    else firstDigitRun rest

/-- The per-cell numeric-price parse of cleaning step 3:
`float(re.findall(r'\d+', x)[0])` after stripping spaces and `'CFA'` from
`str(x)`, `None` when no digits remain. -/
def parsePrixCell (c : Cell) : Option ℚ :=
  (firstDigitRun (stripCFA (stripSpaces (astypeStrCell c)))).map (fun n => (n : ℚ))

/-- Float-or-NaN cell out of an optional parse result. -/
def optQCell : Option ℚ → Cell
  | none => Cell.null
  | some q => Cell.num q

/-- Numeric reading of a cell (`some` exactly when `notna` on a float cell). -/
def cellQ? : Cell → Option ℚ
  | Cell.num q => some q
  | _ => none

/-- Python `f"{x}"` for the values that can sit in the `nom` column. -/
def cellFstr : Cell → String
  | Cell.str s => s
  | Cell.null => "nan"
  | Cell.num q => toString q

/-! ### The cleaner, step by step (`clean_beautifulsoup_data`) -/

/-- Step 1 body: `df_clean[df_clean['nom'].notna() & (df_clean['nom'].str.len() > 0)]`. -/
def filterNom (d : DataFrame) : DataFrame :=
  filterRows d (fun r => nomOkCell (getCell r (colIdx d "nom")))

def step1 (d : DataFrame) : DataFrame :=
  if hasCol d "nom" then filterNom d else d

/-- Step 2 body: keep rows whose lower-cased price text contains no keyword. -/
def filterKeyword (d : DataFrame) : DataFrame :=
  filterRows d (fun r => prixKeywordFree (getCell r (colIdx d "prix")))

def step2 (d : DataFrame) : DataFrame :=
  if hasCol d "prix" then filterKeyword d else d

/-- Source line `df_clean['prix_num'] = df_clean['prix'].astype(str)...apply(...)`. -/
def addPrixNum (d : DataFrame) : DataFrame :=
  setCol d "prix_num" (d.rows.map (fun r => optQCell (parsePrixCell (getCell r.2 (colIdx d "prix")))))

/-- Source line `prix_valides = df_clean['prix_num'].dropna()`. -/
def validPrices (d : DataFrame) : List ℚ :=
  d.rows.filterMap (fun r => cellQ? (getCell r.2 (colIdx d "prix_num")))

/-- Source filter `df_clean[(df_clean['prix_num'].isna()) | (df_clean['prix_num'] >= seuil)]`
with `seuil = prix_valides.mean() / 2`. -/
def filterOutliers (d : DataFrame) : DataFrame :=
  let valides := validPrices d
  let seuil := valides.sum / (valides.length : ℚ) / 2
  filterRows d (fun r =>
    match cellQ? (getCell r (colIdx d "prix_num")) with
    | none => true
    | some q => decide (seuil ≤ q))

def step3 (d : DataFrame) : DataFrame :=
  if hasCol d "prix" && !d.rows.isEmpty then
    let d1 := addPrixNum d
    let d2 := if !(validPrices d1).isEmpty then filterOutliers d1 else d1
    dropCol d2 "prix_num"
  else d

/-! Step 4: duplicate-name suffixing via the `nom_counts` dictionary. -/

def lookupCount : List (Cell × Nat) → Cell → Option Nat
  | [], _ => none
  | (k, v) :: rest, c => if k = c then some v else lookupCount rest c

def setCount (counts : List (Cell × Nat)) (c : Cell) (v : Nat) : List (Cell × Nat) :=
  counts.map (fun p => if p.1 = c then (p.1, v) else p)

/-- Python `f"{nom} {nom_counts[nom]}"`. -/
def dedupSuffix (c : Cell) (k : Nat) : Cell :=
  Cell.str (cellFstr c ++ " " ++ toString k)

/-- The `for nom in df_clean['nom']` loop building `new_noms`. -/
def dedupGo (counts : List (Cell × Nat)) : List Cell → List Cell
  | [] => []
  | c :: rest =>
    match lookupCount counts c with
    | some k => dedupSuffix c (k + 1) :: dedupGo (setCount counts c (k + 1)) rest
    | none => c :: dedupGo ((c, 0) :: counts) rest

def dedupNames (l : List Cell) : List Cell := dedupGo [] l

/-- Step 4 body: `df_clean['nom'] = new_noms`. -/
def applyDedup (d : DataFrame) : DataFrame :=
  setCol d "nom" (dedupNames (d.rows.map (fun r => getCell r.2 (colIdx d "nom"))))

def step4 (d : DataFrame) : DataFrame :=
  if hasCol d "nom" then applyDedup d else d

/-- Step 5 body: `df_clean[[col for col in columns_to_keep if col in df_clean.columns]]`. -/
def projectCols (d : DataFrame) : DataFrame :=
  selectCols d (stdCols.filter (fun c => hasCol d c))

def step5 (d : DataFrame) : DataFrame :=
  resetIndex (projectCols d)

/-- The function `clean_beautifulsoup_data(df)`: the full cleaner. Empty frames are
returned unchanged; otherwise the five steps run in source order. -/
def clean_beautifulsoup_data (df : DataFrame) : DataFrame :=
  if dfEmpty df then df else step5 (step4 (step3 (step2 (step1 df))))

/-- Values of a named column, in row order. -/
def colVals (d : DataFrame) (c : String) : List Cell :=
  d.rows.map (fun r => getCell r.2 (colIdx d c))

/-! ### The scraper (`beautifulsoup_scraper.py`)

The DOM and the network are abstracted by oracles.  A structural lookup on a
detail page either finds a node (yielding the already-stripped text), finds
nothing (`soup.find` returns `None`), or raises; Python exceptions are
modelled as `Except Unit`. -/

inductive Lookup where
  | found (s : String)
  | missing
  | throws
deriving DecidableEq

/-- Outcomes of the three structural lookups of one detail page. -/
structure DetailPage where
  nomLookup : Lookup
  prixLookup : Lookup
  adresseLookup : Lookup
deriving DecidableEq

/-- One field extraction, e.g. `nom_tag.text.strip() if nom_tag else None`. -/
def doLookup : Lookup → Except Unit (Option String)
  | Lookup.found s => Except.ok (some s)
  | Lookup.missing => Except.ok none
  | Lookup.throws => Except.error ()

/-- The dict built from one detail page before the `if nom:` check. -/
structure RawItem where
  nom : Option String
  prix : Option String
  adresse : Option String
deriving DecidableEq

/-- The three sequential field extractions of `scrape_page`'s detail step,
exactly as they run inside the single inner `try:` block. -/
def extractFields (p : DetailPage) : Except Unit RawItem := do
  let nom ← doLookup p.nomLookup
  let prix_text ← doLookup p.prixLookup
  let adresse_text ← doLookup p.adresseLookup
  Except.ok ⟨nom, prix_text, adresse_text⟩

/-- Field value of one lookup taken in isolation: text when found, null
otherwise. -/
def lookupOpt : Lookup → Option String
  | Lookup.found s => some s
  | _ => none

/-- Modelled from the spec: "three fields via independent structural lookups,
each optional and failure-isolated — if one lookup throws (malformed DOM) it
must not prevent extraction of the others".  A throwing lookup yields a null
field; the other fields are unaffected. -/
def extractFieldsIsolated (p : DetailPage) : RawItem :=
  ⟨lookupOpt p.nomLookup, lookupOpt p.prixLookup, lookupOpt p.adresseLookup⟩

/-- One ad-card container of a listing page. -/
structure Container where
  href : Option String
  imgSrc : Option String
deriving DecidableEq

/-- One appended item (the `if nom:` guard ensures a nonempty name). -/
structure Item where
  nom : String
  prix : Option String
  adresse : Option String
  image_lien : Option String
deriving DecidableEq

/-- Network oracle: what `requests.get(...)` + parsing delivers at each URL.
A non-2xx status or network fault is the `Except.error` case
(`raise_for_status`). -/
structure World where
  listFetch : String → Except Unit (List Container)
  detailFetch : String → Except Unit DetailPage

def origin : String := "https://sn.coinafrique.com"

/-- Python truthiness of the optional name: `if nom:`. -/
def truthy : Option String → Bool
  | some s => s.length > 0
  | none => false

/-- The body of the per-container loop of `scrape_page`: skip when there is no
anchor href, fetch the detail page, extract, and keep the item only when a
name was found.  The inner `except Exception: pass` absorbs both the detail
fetch failure and any lookup exception, yielding no item. -/
def processContainer (w : World) (c : Container) : Option Item :=
  match c.href with
  | none => none
  | some href =>
    let image_lien := c.imgSrc
    let url_container := origin ++ href
    match (do
        let page ← w.detailFetch url_container
        extractFields page : Except Unit RawItem) with
    | Except.error _ => none
    | Except.ok raw =>
      match raw.nom with
      | some nom => if nom.length > 0 then some ⟨nom, raw.prix, raw.adresse, image_lien⟩ else none
      | none => none

/-- The function `scrape_page(url)`: fetch the listing page, then process each container.
Second component: the network requests performed, in order (a failed fetch is
still a performed request).  A listing-page fetch failure is re-raised
(`raise Exception(...)` in the outer handler). -/
def scrape_page (w : World) (url : String) : Except Unit (List Item) × List String :=
  match w.listFetch url with
  | Except.error _ => (Except.error (), [url])
  | Except.ok containers =>
    if containers.isEmpty then (Except.ok [], [url])
    else
      let detailReqs := containers.filterMap (fun c => c.href.map (fun h => origin ++ h))
      (Except.ok (containers.filterMap (processContainer w)), url :: detailReqs)

/-- The `CATEGORIES` table. -/
def CATEGORIES : List (String × String) :=
  [("chiens", origin ++ "/categorie/chiens"),
   ("moutons", origin ++ "/categorie/moutons"),
   ("poules-lapins-et-pigeons", origin ++ "/categorie/poules-lapins-et-pigeons"),
   ("autres-animaux", origin ++ "/categorie/autres-animaux")]

inductive ScrapeError where
  | invalidCategory (cat : String)
  | pageFailure
deriving DecidableEq

/-- Pagination: bare base URL for page 1, `?page={n}` after. -/
def pageUrl (base : String) (n : Nat) : String :=
  if n = 1 then base else base ++ "?page=" ++ toString n

/-- The page loop of `scrape_category`: scrape each page in order, abort on
the first page-level failure, concatenate items and request logs. -/
def crawlPages (w : World) (base : String) : List Nat → Except ScrapeError (List Item) × List String
  | [] => (Except.ok [], [])
  | n :: rest =>
    match scrape_page w (pageUrl base n) with
    | (Except.error _, reqs) => (Except.error ScrapeError.pageFailure, reqs)
    | (Except.ok items, reqs) =>
      match crawlPages w base rest with
      | (Except.error e, reqs2) => (Except.error e, reqs ++ reqs2)
      | (Except.ok items2, reqs2) => (Except.ok (items ++ items2), reqs ++ reqs2)

def optCell : Option String → Cell
  | none => Cell.null
  | some s => Cell.str s

/-- Constructor `pd.DataFrame(all_data)`: four columns in dict-key order when there is at
least one record, a fully empty frame otherwise. -/
def itemsToDF (items : List Item) : DataFrame :=
  if items.isEmpty then ⟨[], []⟩
  else
    ⟨stdCols, (List.range items.length).zip (items.map (fun it =>
        [Cell.str it.nom, optCell it.prix, optCell it.adresse, optCell it.image_lien]))⟩

/-- The function `scrape_category(category, num_pages)`: validate the category (raising
before any request otherwise), crawl the pages, build the raw DataFrame and
clean it.  Second component: the network requests performed, in order. -/
def scrape_category (w : World) (category : String) (num_pages : Nat) :
    Except ScrapeError DataFrame × List String :=
  match CATEGORIES.lookup category with
  | none => (Except.error (ScrapeError.invalidCategory category), [])
  | some base_url =>
    match crawlPages w base_url ((List.range num_pages).map (· + 1)) with
    | (Except.error e, reqs) => (Except.error e, reqs)
    | (Except.ok all_data, reqs) => (Except.ok (clean_beautifulsoup_data (itemsToDF all_data)), reqs)

/-! ### Heap model of `clean_beautifulsoup_data` (for the frame property)

References into a store of DataFrame objects make the Python aliasing
explicit: `df.copy()` and every `df_clean = …` re-binding allocate a fresh
object, while the two column `__setitem__` assignments mutate `df_clean` in
place.  The caller's object sits at the argument reference. -/

abbrev Store := List DataFrame

def readRef (st : Store) (r : Nat) : DataFrame :=
  List.getD st r ⟨[], []⟩

def writeRef (st : Store) (r : Nat) (d : DataFrame) : Store :=
  List.set st r d

def allocRef (st : Store) (d : DataFrame) : Store × Nat :=
  (st ++ [d], List.length st)

/-- A re-binding `df_clean = f(df_clean)`: the result is a fresh object. -/
def reassign (s : Store × Nat) (f : DataFrame → DataFrame) : Store × Nat :=
  allocRef s.1 (f (readRef s.1 s.2))

/-- An in-place `df_clean[c] = …` column assignment. -/
def setItem (s : Store × Nat) (f : DataFrame → DataFrame) : Store × Nat :=
  (writeRef s.1 s.2 (f (readRef s.1 s.2)), s.2)

/-- Step 1 over the store: the guarded re-binding `df_clean = df_clean[...]`. -/
def storeStep1 (s : Store × Nat) : Store × Nat :=
  if hasCol (readRef s.1 s.2) "nom" then reassign s filterNom else s

/-- Step 2 over the store. -/
def storeStep2 (s : Store × Nat) : Store × Nat :=
  if hasCol (readRef s.1 s.2) "prix" then reassign s filterKeyword else s

/-- Step 3 over the store: the in-place `df_clean['prix_num'] = …`, the
guarded outlier re-binding, and the `drop` re-binding. -/
def storeStep3 (s : Store × Nat) : Store × Nat :=
  if hasCol (readRef s.1 s.2) "prix" && !(readRef s.1 s.2).rows.isEmpty then
    let sA := setItem s addPrixNum
    let sB := if !(validPrices (readRef sA.1 sA.2)).isEmpty then reassign sA filterOutliers else sA
    reassign sB (fun d => dropCol d "prix_num")
  else s

/-- Step 4 over the store: the in-place `df_clean['nom'] = new_noms`. -/
def storeStep4 (s : Store × Nat) : Store × Nat :=
  if hasCol (readRef s.1 s.2) "nom" then setItem s applyDedup else s

/-- Step 5 over the store: the projection and `reset_index` re-bindings. -/
def storeStep5 (s : Store × Nat) : Store × Nat :=
  reassign (reassign s projectCols) resetIndex

/-- The body of the cleaner after `df_clean = df.copy()`, one combinator per
source statement. -/
def cleanStoreGo (s : Store × Nat) : Store × Nat :=
  storeStep5 (storeStep4 (storeStep3 (storeStep2 (storeStep1 s))))

/-- The cleaner `clean_beautifulsoup_data` over the store: the argument lives at `r`; the
returned reference holds the cleaned frame. -/
def cleanStore (st : Store) (r : Nat) : Store × Nat :=
  let df := readRef st r
  if dfEmpty df then (st, r)
  else cleanStoreGo (allocRef st df)

/-- Store-prefix invariant threaded through `cleanStoreGo`: the store only
grew past the frozen prefix `st`, and the working reference points past it. -/
def StoreExtends (st : Store) (s : Store × Nat) : Prop :=
  (∃ t, s.1 = st ++ t) ∧ st.length ≤ s.2

/-! ### Spec-side helper functions (for stating the claims) -/

/-- The numeric prices that parse among a frame's rows, in row order. -/
def parsedPrices (d : DataFrame) : List ℚ :=
  d.rows.filterMap (fun r => parsePrixCell (getCell r.2 (colIdx d "prix")))

/-- The step-3 keep condition as the spec words it: unparsable prices are
kept, parsed prices must reach half the mean of `ps`. -/
def keepOutlier (ps : List ℚ) : Option ℚ → Bool
  | none => true
  | some q => decide (ps.sum / (ps.length : ℚ) / 2 ≤ q)

/-- The spec's wording of step 4, relative to the already-processed prefix
`p` of raw names: a name with `k = 0` prior occurrences stays, the k-th
repeat (k ≥ 1) gets `" {k}"` appended. -/
def suffixAccum (p : List Cell) : List Cell → List Cell
  | [] => []
  | c :: rest =>
    (if p.count c = 0 then c else dedupSuffix c (p.count c)) :: suffixAccum (p ++ [c]) rest

/-- The spec's wording of step 4: each output name is the input name, with
`" {k}"` appended when exactly k ≥ 1 earlier rows carry the same raw name. -/
def suffixByPrior (l : List Cell) : List Cell := suffixAccum [] l

/-! ### Concrete scenarios -/

def mkRow (i : Nat) (nom prix adresse img : String) : Nat × List Cell :=
  (i, [Cell.str nom, Cell.str prix, Cell.str adresse, Cell.str img])

/-- The spec's name-deduplication scenario (all rows pass the other filters). -/
def exDedup : DataFrame :=
  ⟨stdCols, [mkRow 0 "Chien" "1000 CFA" "Dakar" "a",
             mkRow 1 "Chien" "1000 CFA" "Dakar" "b",
             mkRow 2 "Chat" "1000 CFA" "Dakar" "c",
             mkRow 3 "Chien" "1000 CFA" "Dakar" "d"]⟩

/-- A batch where a raw name collides with a suffixed duplicate. -/
def exDupCollide : DataFrame :=
  ⟨stdCols, [mkRow 0 "Chien" "1000 CFA" "Dakar" "a",
             mkRow 1 "Chien" "1000 CFA" "Dakar" "b",
             mkRow 2 "Chien 1" "1000 CFA" "Dakar" "c"]⟩

/-- An already-clean two-row table (distinct names, no keywords, both prices
at least half their mean, dense index). -/
def exClean : DataFrame :=
  ⟨stdCols, [mkRow 0 "Chien" "5000 CFA" "Dakar" "i0",
             mkRow 1 "Chat" "6000 CFA" "Thies" "i1"]⟩

/-- A batch exercising the keyword filter, a missing price and a low outlier:
mean of parsed prices after steps 1-2 is (100 + 1000) / 2 = 550. -/
def exBatch : DataFrame :=
  ⟨stdCols, [mkRow 0 "A" "100 CFA" "x" "a",
             mkRow 1 "B" "1000 CFA" "x" "b",
             (2, [Cell.str "C", Cell.null, Cell.str "x", Cell.str "c"]),
             mkRow 3 "D" "Prix sur demande" "x" "d"]⟩

/-- A rowless frame carrying an extra column. -/
def exEmptyExtra : DataFrame :=
  ⟨stdCols ++ ["notes"], []⟩

/-- A one-row frame carrying an extra column. -/
def exExtraCol : DataFrame :=
  ⟨stdCols ++ ["notes"],
   [(0, [Cell.str "A", Cell.str "1000 CFA", Cell.str "x", Cell.str "a", Cell.str "n"])]⟩

/-- A one-row frame carrying both a pre-existing `prix_num` column and a
further extra column (step 3 overwrites and then drops the former). -/
def exExtraPrixNum : DataFrame :=
  ⟨stdCols ++ ["prix_num", "notes"],
   [(0, [Cell.str "A", Cell.str "1000 CFA", Cell.str "x", Cell.str "a",
         Cell.num 7, Cell.str "n"])]⟩

/-- A detail page whose price lookup raises while name and address resolve. -/
def exPageThrow : DetailPage :=
  ⟨Lookup.found "Chien", Lookup.throws, Lookup.found "Dakar"⟩

def exContainer : Container := ⟨some "/annonce/1", some "img1"⟩

/-- World in which every detail fetch delivers `exPageThrow`. -/
def exWorldThrow : World :=
  ⟨fun _ => Except.ok [exContainer], fun _ => Except.ok exPageThrow⟩

def pageA : DetailPage :=
  ⟨Lookup.found "Chien", Lookup.found "5000 CFA", Lookup.found "Dakar"⟩

def pageC : DetailPage :=
  ⟨Lookup.found "Chat", Lookup.missing, Lookup.found "Thies"⟩

def contA : Container := ⟨some "/a", some "ia"⟩
def contB : Container := ⟨some "/b", some "ib"⟩
def contC : Container := ⟨some "/c", none⟩

/-- World with three containers; the middle detail fetch fails. -/
def exWorldBatch : World :=
  ⟨fun _ => Except.ok [contA, contB, contC],
   fun u =>
     if u = origin ++ "/a" then Except.ok pageA
     else if u = origin ++ "/b" then Except.error ()
     else Except.ok pageC⟩

/-- World used for category-validation scenarios. -/
def exWorldEmpty : World :=
  ⟨fun _ => Except.ok [], fun _ => Except.ok ⟨Lookup.missing, Lookup.missing, Lookup.missing⟩⟩

/-- A store holding one frame at reference 0. -/
def exStore : Store := [exBatch]

/-! ## Lemmas: cells and rows -/

theorem cellQ?_optQCell (o : Option ℚ) : cellQ? (optQCell o) = o := by
  cases o <;> rfl

theorem getCell_append (l : List Cell) (v : Cell) : getCell (l ++ [v]) l.length = v := by
  unfold getCell
  rw [List.getD_eq_getElem?_getD, List.getElem?_append_right (Nat.le_refl _)]
  simp

theorem eraseIdx_append_self {α : Type} (l : List α) (v : α) : (l ++ [v]).eraseIdx l.length = l := by
  rw [List.eraseIdx_append_of_length_le (Nat.le_refl _)]
  simp

theorem set_getCell_self (l : List Cell) : ∀ i : Nat, i < l.length → l.set i (getCell l i) = l := by
  induction l with
  | nil => intro i h; simp at h
  | cons c t ih =>
    intro i h
    cases i with
    | zero => rfl
    | succ n =>
      have := ih n (by simpa using h)
      simp only [getCell, List.getD_cons_succ, List.set_cons_succ] at this ⊢
      rw [this]

theorem list_four_eq (l : List Cell) (h : l.length = 4) :
    [getCell l 0, getCell l 1, getCell l 2, getCell l 3] = l := by
  rcases l with _ | ⟨a, _ | ⟨b, _ | ⟨c, _ | ⟨e, _ | ⟨f, t⟩⟩⟩⟩⟩ <;> simp_all [getCell]

theorem zip_fst_snd (l : List (Nat × List Cell)) :
    (l.map Prod.fst).zip (l.map Prod.snd) = l := by
  induction l with
  | nil => rfl
  | cons a t ih => simp [ih]

/-! ## Lemmas: append / erase of the temporary column at the row level -/

theorem filterMap_append_cell (rows : List (Nat × List Cell)) (n : Nat)
    (h : ∀ r ∈ rows, r.2.length = n) (g : Nat × List Cell → Cell)
    (q : Cell → Option ℚ) :
    (rows.map (fun r => (r.1, r.2 ++ [g r]))).filterMap (fun r => q (getCell r.2 n)) =
      rows.filterMap (fun r => q (g r)) := by
  rw [List.filterMap_map]
  apply List.filterMap_congr
  intro r hr
  simp only [Function.comp_apply]
  rw [← h r hr, getCell_append]

theorem map_append_erase (rows : List (Nat × List Cell)) (n : Nat)
    (h : ∀ r ∈ rows, r.2.length = n) (g : Nat × List Cell → Cell) :
    (rows.map (fun r => (r.1, r.2 ++ [g r]))).map (fun r => (r.1, r.2.eraseIdx n)) = rows := by
  rw [List.map_map]
  have h2 : ∀ r ∈ rows,
      ((fun r => (r.1, r.2.eraseIdx n)) ∘ fun r => (r.1, r.2 ++ [g r])) r = r := by
    intro r hr
    simp only [Function.comp_apply]
    rw [← h r hr, eraseIdx_append_self]
  rw [List.map_congr_left h2, List.map_id']

theorem filter_append_erase (rows : List (Nat × List Cell)) (n : Nat)
    (h : ∀ r ∈ rows, r.2.length = n) (g : Nat × List Cell → Cell)
    (p : Cell → Bool) :
    ((rows.map (fun r => (r.1, r.2 ++ [g r]))).filter (fun r => p (getCell r.2 n))).map
        (fun r => (r.1, r.2.eraseIdx n)) =
      rows.filter (fun r => p (g r)) := by
  rw [List.filter_map]
  have h1 : List.filter ((fun r => p (getCell r.2 n)) ∘ fun r => (r.1, r.2 ++ [g r])) rows
      = List.filter (fun r => p (g r)) rows := by
    apply List.filter_congr
    intro r hr
    simp only [Function.comp_apply]
    rw [← h r hr, getCell_append]
  rw [h1, List.map_map]
  have h2 : ∀ r ∈ List.filter (fun r => p (g r)) rows,
      ((fun r => (r.1, r.2.eraseIdx n)) ∘ fun r => (r.1, r.2 ++ [g r])) r = r := by
    intro r hr
    have hm := List.mem_of_mem_filter hr
    simp only [Function.comp_apply]
    rw [← h r hm, eraseIdx_append_self]
  rw [List.map_congr_left h2, List.map_id']

/-! ## Lemmas: the cleaning steps -/

theorem step1_cols (d : DataFrame) : (step1 d).cols = d.cols := by
  unfold step1 filterNom filterRows
  split <;> rfl

theorem step2_cols (d : DataFrame) : (step2 d).cols = d.cols := by
  unfold step2 filterKeyword filterRows
  split <;> rfl

theorem Wf_filterRows {d : DataFrame} (p : List Cell → Bool) (h : Wf d) :
    Wf (filterRows d p) := by
  intro r hr
  exact h r (List.mem_of_mem_filter hr)

theorem Wf_step1 {d : DataFrame} (h : Wf d) : Wf (step1 d) := by
  unfold step1
  split
  · exact Wf_filterRows _ h
  · exact h

theorem Wf_step2 {d : DataFrame} (h : Wf d) : Wf (step2 d) := by
  unfold step2
  split
  · exact Wf_filterRows _ h
  · exact h

theorem step1_rows {d : DataFrame} (h : hasCol d "nom" = true) :
    step1 d = ⟨d.cols, d.rows.filter (fun r => nomOkCell (getCell r.2 (colIdx d "nom")))⟩ := by
  unfold step1 filterNom filterRows
  rw [if_pos h]

theorem step2_rows {d : DataFrame} (h : hasCol d "prix" = true) :
    step2 d = ⟨d.cols, d.rows.filter (fun r => prixKeywordFree (getCell r.2 (colIdx d "prix")))⟩ := by
  unfold step2 filterKeyword filterRows
  rw [if_pos h]

theorem addPrixNum_eq {d : DataFrame} (h : hasCol d "prix_num" = false) :
    addPrixNum d = ⟨d.cols ++ ["prix_num"],
      d.rows.map (fun r =>
        (r.1, r.2 ++ [optQCell (parsePrixCell (getCell r.2 (colIdx d "prix")))]))⟩ := by
  unfold addPrixNum setCol
  rw [if_neg (by simp [h])]
  rw [List.zipWith_map_right, List.zipWith_same]

theorem keepOutlier_match (ps : List ℚ) (o : Option ℚ) :
    (match cellQ? (optQCell o) with
      | none => true
      | some q => decide (ps.sum / (ps.length : ℚ) / 2 ≤ q)) = keepOutlier ps o := by
  cases o <;> rfl

theorem dropCol_rows (d : DataFrame) (c : String) (h : hasCol d c = true) :
    dropCol d c = ⟨d.cols.eraseIdx (colIdx d c),
      d.rows.map (fun r => (r.1, r.2.eraseIdx (colIdx d c)))⟩ := by
  unfold dropCol
  rw [if_pos h]

theorem filterOutliers_rows (d : DataFrame) :
    filterOutliers d = ⟨d.cols, d.rows.filter (fun r =>
      match cellQ? (getCell r.2 (colIdx d "prix_num")) with
      | none => true
      | some q => decide ((validPrices d).sum / ((validPrices d).length : ℚ) / 2 ≤ q))⟩ := rfl

theorem step3_char (d : DataFrame) (hwf : Wf d) (hcols : d.cols = stdCols) :
    (parsedPrices d = [] → step3 d = d) ∧
    (parsedPrices d ≠ [] →
      step3 d = ⟨d.cols, d.rows.filter (fun r =>
        keepOutlier (parsedPrices d) (parsePrixCell (getCell r.2 (colIdx d "prix"))))⟩) := by
  obtain ⟨cols, rows⟩ := d
  change cols = stdCols at hcols
  subst hcols
  have h4 : ∀ r ∈ rows, (r : Nat × List Cell).2.length = 4 := fun r hr => hwf r hr
  by_cases hrows : rows = []
  · subst hrows
    exact ⟨fun _ => rfl, fun hne => absurd rfl hne⟩
  · have hemp : rows.isEmpty = false := by
      cases rows
      · exact absurd rfl hrows
      · rfl
    have hprix : hasCol ⟨stdCols, rows⟩ "prix" = true := rfl
    have hpnum : hasCol ⟨stdCols, rows⟩ "prix_num" = false := rfl
    have hadd := addPrixNum_eq hpnum
    -- the appended numeric column, row by row
    set g : Nat × List Cell → Cell :=
      fun r => optQCell (parsePrixCell (getCell r.2 (colIdx ⟨stdCols, rows⟩ "prix"))) with hg
    have hps : parsedPrices ⟨stdCols, rows⟩ =
        rows.filterMap (fun r => cellQ? (g r)) := by
      unfold parsedPrices
      apply List.filterMap_congr
      intro r _
      rw [hg, cellQ?_optQCell]
    have hvalid : validPrices (addPrixNum ⟨stdCols, rows⟩) = parsedPrices ⟨stdCols, rows⟩ := by
      rw [hadd, hps]
      unfold validPrices
      exact filterMap_append_cell rows 4 h4 g cellQ?
    have hstep : step3 ⟨stdCols, rows⟩ =
        dropCol (if !(validPrices (addPrixNum ⟨stdCols, rows⟩)).isEmpty
            then filterOutliers (addPrixNum ⟨stdCols, rows⟩)
            else addPrixNum ⟨stdCols, rows⟩) "prix_num" := by
      unfold step3
      rw [hprix, hemp]
      rfl
    have hpn2 : hasCol (addPrixNum ⟨stdCols, rows⟩) "prix_num" = true := by
      rw [hadd]; rfl
    have hpn3 : hasCol (filterOutliers (addPrixNum ⟨stdCols, rows⟩)) "prix_num" = true := by
      rw [filterOutliers_rows, hadd]; rfl
    constructor
    · -- no parseable price: the step is the identity
      intro hnil
      rw [hstep, hvalid, hnil]
      simp only [List.isEmpty_nil, Bool.not_true, Bool.false_eq_true, if_false]
      rw [dropCol_rows _ _ hpn2, hadd]
      refine DataFrame.ext rfl ?_
      exact map_append_erase rows 4 h4 g
    · -- some parseable price: exactly the low outliers are dropped
      intro hne
      have hne' : (validPrices (addPrixNum ⟨stdCols, rows⟩)).isEmpty = false := by
        rw [hvalid]
        cases hv : parsedPrices ⟨stdCols, rows⟩
        · exact absurd hv hne
        · rfl
      rw [hstep, hne']
      simp only [Bool.not_false, if_true]
      rw [dropCol_rows _ _ hpn3, filterOutliers_rows, hvalid, hadd]
      refine DataFrame.ext rfl ?_
      have hfe := filter_append_erase rows 4 h4 g
        (fun c => match cellQ? c with
          | none => true
          | some q => decide ((parsedPrices ⟨stdCols, rows⟩).sum /
              ((parsedPrices ⟨stdCols, rows⟩).length : ℚ) / 2 ≤ q))
      have hfc : rows.filter (fun r =>
          (fun c => match cellQ? c with
            | none => true
            | some q => decide ((parsedPrices ⟨stdCols, rows⟩).sum /
                ((parsedPrices ⟨stdCols, rows⟩).length : ℚ) / 2 ≤ q)) (g r))
          = rows.filter (fun r => keepOutlier (parsedPrices ⟨stdCols, rows⟩)
              (parsePrixCell (getCell r.2 (colIdx ⟨stdCols, rows⟩ "prix")))) := by
        apply List.filter_congr
        intro r _
        exact keepOutlier_match (parsedPrices ⟨stdCols, rows⟩) _
      exact hfe.trans hfc

/-! ## Lemmas: duplicate-name suffixing (step 4) -/

theorem dedupGo_length (counts : List (Cell × Nat)) (l : List Cell) :
    (dedupGo counts l).length = l.length := by
  induction l generalizing counts with
  | nil => rfl
  | cons c rest ih =>
    simp only [dedupGo]
    cases h : lookupCount counts c <;> simp [h, ih]

theorem lookupCount_setCount_self (counts : List (Cell × Nat)) (c : Cell) (v k : Nat)
    (h : lookupCount counts c = some k) :
    lookupCount (setCount counts c v) c = some v := by
  induction counts with
  | nil => simp [lookupCount] at h
  | cons p rest ih =>
    obtain ⟨a, b⟩ := p
    simp only [setCount, List.map_cons]
    by_cases hac : a = c
    · rw [if_pos hac]
      simp only [lookupCount, if_pos hac]
    · rw [if_neg hac]
      simp only [lookupCount, if_neg hac] at h ⊢
      exact ih h

theorem lookupCount_setCount_other (counts : List (Cell × Nat)) (c : Cell) (v : Nat) (c' : Cell)
    (h : ¬ c' = c) :
    lookupCount (setCount counts c v) c' = lookupCount counts c' := by
  induction counts with
  | nil => rfl
  | cons p rest ih =>
    obtain ⟨a, b⟩ := p
    simp only [setCount, List.map_cons]
    by_cases hac : a = c
    · rw [if_pos hac]
      have hne : ¬ a = c' := by rw [hac]; exact fun hh => h hh.symm
      simp only [lookupCount, if_neg hne]
      exact ih
    · rw [if_neg hac]
      simp only [lookupCount]
      by_cases hac' : a = c'
      · rw [if_pos hac', if_pos hac']
      · rw [if_neg hac', if_neg hac']
        exact ih

theorem dedupGo_eq (l : List Cell) : ∀ (p : List Cell) (counts : List (Cell × Nat)),
    (∀ c, lookupCount counts c = if p.count c = 0 then none else some (p.count c - 1)) →
    dedupGo counts l = suffixAccum p l := by
  induction l with
  | nil => intro p counts _; rfl
  | cons c0 rest ih =>
    intro p counts hc
    cases hcnt : p.count c0 with
    | zero =>
      have hl : lookupCount counts c0 = none := by
        have := hc c0
        rw [hcnt] at this
        simpa using this
      simp only [dedupGo, hl, suffixAccum, hcnt, reduceIte]
      refine congrArg (c0 :: ·) ?_
      refine ih (p ++ [c0]) ((c0, 0) :: counts) ?_
      intro c'
      by_cases hcc : c0 = c'
      · subst hcc
        simp only [lookupCount, if_pos rfl, List.count_append, List.count_cons,
          List.count_nil, beq_self_eq_true, hcnt]
        simp
      · simp only [lookupCount, if_neg hcc, List.count_append, List.count_cons, List.count_nil]
        have : (c0 == c') = false := by simpa using hcc
        simp only [this, if_false]
        simpa using hc c'
    | succ k0 =>
      have hl : lookupCount counts c0 = some k0 := by
        have := hc c0
        rw [hcnt] at this
        simpa using this
      simp only [dedupGo, hl, suffixAccum, hcnt, reduceIte]
      refine congrArg (dedupSuffix c0 (k0 + 1) :: ·) ?_
      refine ih (p ++ [c0]) (setCount counts c0 (k0 + 1)) ?_
      intro c'
      by_cases hcc : c' = c0
      · subst hcc
        rw [lookupCount_setCount_self counts c' (k0 + 1) k0 hl]
        simp only [List.count_append, List.count_cons, List.count_nil, beq_self_eq_true, hcnt]
        simp
      · rw [lookupCount_setCount_other counts c0 (k0 + 1) c' hcc]
        have hbeq : (c0 == c') = false := by
          simp only [beq_eq_false_iff_ne, ne_eq]
          exact fun h => hcc h.symm
        simp only [List.count_append, List.count_cons, List.count_nil, hbeq, if_false]
        simpa using hc c'

theorem dedupNames_eq_suffixByPrior (l : List Cell) : dedupNames l = suffixByPrior l := by
  exact dedupGo_eq l [] [] (fun c => rfl)

theorem dedupGo_fresh (l : List Cell) : ∀ counts : List (Cell × Nat),
    (∀ c ∈ l, lookupCount counts c = none) → l.Nodup → dedupGo counts l = l := by
  induction l with
  | nil => intro counts _ _; rfl
  | cons c rest ih =>
    intro counts hfresh hnd
    have hc : lookupCount counts c = none := hfresh c (List.mem_cons_self _ _)
    simp only [dedupGo, hc]
    have hnotin : c ∉ rest := (List.nodup_cons.mp hnd).1
    refine congrArg (c :: ·) (ih ((c, 0) :: counts) ?_ (List.nodup_cons.mp hnd).2)
    intro c' hc'
    have hne : ¬ (c = c') := fun h => hnotin (h ▸ hc')
    simp only [lookupCount, if_neg hne]
    exact hfresh c' (List.mem_cons_of_mem _ hc')

theorem dedupNames_of_nodup {l : List Cell} (h : l.Nodup) : dedupNames l = l :=
  dedupGo_fresh l [] (fun _ _ => rfl) h

/-! ## Lemmas: column plumbing (steps 4 and 5) -/

theorem getCell_set_self (l : List Cell) (i : Nat) (v : Cell) (h : i < l.length) :
    getCell (l.set i v) i = v := by
  unfold getCell
  rw [List.getD_eq_getElem?_getD, List.getElem?_set_self (by simpa using h)]
  rfl

theorem zip_set_get (i : Nat) :
    ∀ (rows : List (Nat × List Cell)) (vals : List Cell),
      vals.length = rows.length → (∀ r ∈ rows, i < r.2.length) →
      (rows.zipWith (fun r v => (r.1, r.2.set i v)) vals).map (fun r => getCell r.2 i)
        = vals := by
  intro rows
  induction rows with
  | nil =>
    intro vals hlen _
    cases vals
    · rfl
    · simp at hlen
  | cons r rest ih =>
    intro vals hlen hi
    cases vals with
    | nil => simp at hlen
    | cons v vs =>
      simp only [List.zipWith_cons_cons, List.map_cons]
      rw [getCell_set_self _ _ _ (hi r (List.mem_cons_self _ _))]
      refine congrArg (v :: ·) ?_
      exact ih vs (by simpa using hlen) (fun r' hr' => hi r' (List.mem_cons_of_mem _ hr'))

theorem setCol_replace {d : DataFrame} {c : String} (h : hasCol d c = true) (vals : List Cell) :
    setCol d c vals = ⟨d.cols,
      d.rows.zipWith (fun r v => (r.1, r.2.set (colIdx d c) v)) vals⟩ := by
  unfold setCol
  rw [if_pos h]

theorem step4_eq {d : DataFrame} (h : hasCol d "nom" = true) :
    step4 d = setCol d "nom" (dedupNames (colVals d "nom")) := by
  unfold step4 applyDedup
  rw [if_pos h]
  rfl

theorem step4_cols {d : DataFrame} (h : hasCol d "nom" = true) :
    (step4 d).cols = d.cols := by
  rw [step4_eq h, setCol_replace h]

theorem dedupNames_length (l : List Cell) : (dedupNames l).length = l.length :=
  dedupGo_length [] l

theorem colVals_step4 {d : DataFrame} (hwf : Wf d) (h : hasCol d "nom" = true)
    (hlt : colIdx d "nom" < d.cols.length) :
    colVals (step4 d) "nom" = dedupNames (colVals d "nom") := by
  rw [step4_eq h, setCol_replace h]
  have hlen : (dedupNames (colVals d "nom")).length = d.rows.length := by
    rw [dedupNames_length]
    exact List.length_map _ _
  exact zip_set_get _ _ _ hlen (fun r hr => by rw [hwf r hr]; exact hlt)

theorem projectCols_std {d : DataFrame} (h : ∀ c ∈ stdCols, hasCol d c = true) :
    projectCols d = selectCols d stdCols := by
  unfold projectCols
  rw [List.filter_eq_self.mpr h]

theorem colVals_resetIndex (d : DataFrame) (c : String) :
    colVals (resetIndex d) c = colVals d c := by
  have h := List.map_snd_zip (List.range d.rows.length) (d.rows.map (·.2)) (by simp)
  calc colVals (resetIndex d) c
      = ((List.range d.rows.length).zip (d.rows.map (·.2))).map
          ((fun cells => getCell cells (colIdx d c)) ∘ Prod.snd) := rfl
    _ = (((List.range d.rows.length).zip (d.rows.map (·.2))).map Prod.snd).map
          (fun cells => getCell cells (colIdx d c)) := by rw [List.map_map]
    _ = (d.rows.map (·.2)).map (fun cells => getCell cells (colIdx d c)) := by rw [h]
    _ = colVals d c := by rw [List.map_map]; rfl

theorem colVals_selectCols_nom (d : DataFrame) :
    colVals (selectCols d stdCols) "nom" = colVals d "nom" := by
  unfold colVals selectCols
  rw [List.map_map]
  rfl

theorem setCol_self {d : DataFrame} {c : String} (h : hasCol d c = true)
    (hwf : Wf d) (hlt : colIdx d c < d.cols.length) :
    setCol d c (colVals d c) = d := by
  rw [setCol_replace h]
  refine DataFrame.ext rfl ?_
  show d.rows.zipWith (fun r v => (r.1, r.2.set (colIdx d c) v))
      (d.rows.map (fun r => getCell r.2 (colIdx d c))) = d.rows
  rw [List.zipWith_map_right, List.zipWith_same]
  have hid : ∀ r ∈ d.rows, (r.1, r.2.set (colIdx d c) (getCell r.2 (colIdx d c))) = r := by
    intro r hr
    rw [set_getCell_self r.2 _ (by rw [hwf r hr]; exact hlt)]
  rw [List.map_congr_left hid, List.map_id']

theorem selectCols_std_self {d : DataFrame} (hcols : d.cols = stdCols) (hwf : Wf d) :
    selectCols d stdCols = d := by
  obtain ⟨cols, rows⟩ := d
  change cols = stdCols at hcols
  subst hcols
  have hwf4 : ∀ r ∈ rows, (r : Nat × List Cell).2.length = 4 := fun r hr => hwf r hr
  refine DataFrame.ext rfl ?_
  show rows.map (fun r =>
      (r.1, stdCols.map (fun c => getCell r.2 (colIdx ⟨stdCols, rows⟩ c)))) = rows
  have hid : ∀ r ∈ rows,
      (r.1, stdCols.map (fun c => getCell r.2 (colIdx ⟨stdCols, rows⟩ c))) = r := by
    intro r hr
    calc (r.1, stdCols.map (fun c => getCell r.2 (colIdx ⟨stdCols, rows⟩ c)))
        = (r.1, [getCell r.2 0, getCell r.2 1, getCell r.2 2, getCell r.2 3]) := rfl
      _ = (r.1, r.2) := by rw [list_four_eq r.2 (hwf4 r hr)]
  rw [List.map_congr_left hid, List.map_id']

theorem resetIndex_self {d : DataFrame}
    (hidx : d.rows.map Prod.fst = List.range d.rows.length) :
    resetIndex d = d := by
  refine DataFrame.ext rfl ?_
  show (List.range d.rows.length).zip (d.rows.map (·.2)) = d.rows
  rw [← hidx]
  exact zip_fst_snd d.rows

theorem resetIndex_fst (d : DataFrame) :
    (resetIndex d).rows.map Prod.fst = List.range (resetIndex d).rows.length := by
  show ((List.range d.rows.length).zip (d.rows.map (·.2))).map Prod.fst
      = List.range ((List.range d.rows.length).zip (d.rows.map (·.2))).length
  rw [List.map_fst_zip _ _ (by simp)]
  congr 1
  simp [List.length_zip]

theorem findIdx_append_self (l : List String) (c : String) (h : c ∉ l) :
    (l ++ [c]).findIdx (· == c) = l.length := by
  induction l with
  | nil => simp [List.findIdx_cons]
  | cons a t ih =>
    have ha : (a == c) = false := by
      simp only [beq_eq_false_iff_ne, ne_eq]
      intro heq
      exact h (heq ▸ List.mem_cons_self a t)
    simp only [List.cons_append, List.findIdx_cons, ha, cond_false, List.length_cons]
    rw [ih (fun hm => h (List.mem_cons_of_mem _ hm))]

theorem hasCol_false_not_mem {d : DataFrame} {c : String} (h : hasCol d c = false) :
    c ∉ d.cols := by
  intro hm
  rw [show hasCol d c = true by simpa [hasCol] using hm] at h
  cases h

theorem step3_cols {d : DataFrame} (hpn : hasCol d "prix_num" = false) :
    (step3 d).cols = d.cols := by
  have hnm := hasCol_false_not_mem hpn
  unfold step3
  split
  case isTrue hguard =>
    have hadd := addPrixNum_eq hpn
    have hcolsA : (addPrixNum d).cols = d.cols ++ ["prix_num"] := by rw [hadd]
    have hcolsB : (if !(validPrices (addPrixNum d)).isEmpty
        then filterOutliers (addPrixNum d) else addPrixNum d).cols
        = d.cols ++ ["prix_num"] := by
      split
      · rw [filterOutliers_rows]
        exact hcolsA
      · exact hcolsA
    have hgen : ∀ X : DataFrame, X.cols = d.cols ++ ["prix_num"] →
        (dropCol X "prix_num").cols = d.cols := by
      intro X hX
      have hhas : hasCol X "prix_num" = true := by
        show X.cols.contains "prix_num" = true
        rw [hX]
        simp
      rw [dropCol_rows _ _ hhas]
      show X.cols.eraseIdx (X.cols.findIdx (· == "prix_num")) = d.cols
      rw [hX, findIdx_append_self _ _ hnm, eraseIdx_append_self]
    exact hgen _ hcolsB
  case isFalse => rfl

theorem step3_props {d : DataFrame} (hwf : Wf d) (hcols : d.cols = stdCols) :
    (step3 d).cols = d.cols ∧ Wf (step3 d) ∧ ∀ r ∈ (step3 d).rows, r ∈ d.rows := by
  obtain ⟨h1, h2⟩ := step3_char d hwf hcols
  by_cases hps : parsedPrices d = []
  · rw [h1 hps]
    exact ⟨rfl, hwf, fun r hr => hr⟩
  · rw [h2 hps]
    refine ⟨rfl, ?_, ?_⟩
    · intro r hr
      exact hwf r (List.mem_of_mem_filter hr)
    · intro r hr
      exact List.mem_of_mem_filter hr

theorem step1_subset {d : DataFrame} : ∀ r ∈ (step1 d).rows, r ∈ d.rows := by
  unfold step1 filterNom filterRows
  split
  · exact fun r hr => List.mem_of_mem_filter hr
  · exact fun r hr => hr

theorem step2_subset {d : DataFrame} : ∀ r ∈ (step2 d).rows, r ∈ d.rows := by
  unfold step2 filterKeyword filterRows
  split
  · exact fun r hr => List.mem_of_mem_filter hr
  · exact fun r hr => hr

theorem hasCol_std {d : DataFrame} (hcols : d.cols = stdCols) :
    ∀ c ∈ stdCols, hasCol d c = true := by
  intro c hc
  show d.cols.contains c = true
  rw [hcols]
  fin_cases hc <;> rfl

/-! ## The claims -/

/-- C2: cleaning step 3 drops exactly the rows whose parsed numeric price is
strictly below half the mean of the prices that parse among the rows
surviving steps 1–2 (`keepOutlier` keeps unparsable prices and prices at or
above the threshold); when no surviving row has a parseable price the step
changes nothing. -/
theorem step3_drops_exactly_low_outliers (df : DataFrame)
    (hwf : Wf df) (hcols : df.cols = stdCols) :
    (parsedPrices (step2 (step1 df)) = [] →
      step3 (step2 (step1 df)) = step2 (step1 df)) ∧
    (parsedPrices (step2 (step1 df)) ≠ [] →
      step3 (step2 (step1 df)) = ⟨(step2 (step1 df)).cols,
        (step2 (step1 df)).rows.filter (fun r =>
          keepOutlier (parsedPrices (step2 (step1 df)))
            (parsePrixCell (getCell r.2 (colIdx (step2 (step1 df)) "prix"))))⟩) :=
  step3_char (step2 (step1 df)) (Wf_step2 (Wf_step1 hwf))
    (by rw [step2_cols, step1_cols, hcols])

unseal Rat.add Rat.mul Rat.inv in
theorem step3_drops_exactly_low_outliers_witness :
    Wf exBatch ∧ exBatch.cols = stdCols ∧
    ((parsedPrices (step2 (step1 exBatch)) = [] →
        step3 (step2 (step1 exBatch)) = step2 (step1 exBatch)) ∧
     (parsedPrices (step2 (step1 exBatch)) ≠ [] →
        step3 (step2 (step1 exBatch)) = ⟨(step2 (step1 exBatch)).cols,
          (step2 (step1 exBatch)).rows.filter (fun r =>
            keepOutlier (parsedPrices (step2 (step1 exBatch)))
              (parsePrixCell (getCell r.2 (colIdx (step2 (step1 exBatch)) "prix"))))⟩)) :=
  ⟨by decide, rfl, step3_drops_exactly_low_outliers exBatch (by decide) rfl⟩

/-- C7: cleaning step 2 drops exactly the rows whose lower-cased price text
contains one of the fixed keywords (`prixKeywordFree`); a row with a null
price cell passes the keyword rule (`str(NaN) = "nan"` matches no keyword),
parses to no numeric price, and therefore also survives step 3. -/
theorem step2_drops_exactly_keyword_rows (df : DataFrame) (hwf : Wf df)
    (hcols : df.cols = stdCols) :
    ((step2 (step1 df)).cols = (step1 df).cols ∧
     (step2 (step1 df)).rows = (step1 df).rows.filter (fun r =>
        prixKeywordFree (getCell r.2 (colIdx (step1 df) "prix")))) ∧
    prixKeywordFree Cell.null = true ∧
    parsePrixCell Cell.null = none ∧
    (∀ r ∈ (step1 df).rows, getCell r.2 (colIdx (step1 df) "prix") = Cell.null →
      r ∈ (step2 (step1 df)).rows ∧ r ∈ (step3 (step2 (step1 df))).rows) := by
  have h1cols : (step1 df).cols = stdCols := by rw [step1_cols, hcols]
  have h1wf : Wf (step1 df) := Wf_step1 hwf
  have hprix1 : hasCol (step1 df) "prix" = true := by
    show (step1 df).cols.contains "prix" = true
    rw [h1cols]
    rfl
  have hs2 := step2_rows hprix1
  have h2cols : (step2 (step1 df)).cols = stdCols := by rw [step2_cols, h1cols]
  have h2wf : Wf (step2 (step1 df)) := Wf_step2 h1wf
  refine ⟨⟨by rw [hs2], by rw [hs2]⟩, by decide, rfl, ?_⟩
  intro r hr hnull
  have hkf : prixKeywordFree (getCell r.2 (colIdx (step1 df) "prix")) = true := by
    rw [hnull]
    decide
  have hmem2 : r ∈ (step2 (step1 df)).rows := by
    rw [hs2]
    exact List.mem_filter.mpr ⟨hr, hkf⟩
  refine ⟨hmem2, ?_⟩
  have hidx12 : colIdx (step2 (step1 df)) "prix" = colIdx (step1 df) "prix" := by
    unfold colIdx
    rw [step2_cols]
  obtain ⟨hA, hB⟩ := step3_char (step2 (step1 df)) h2wf h2cols
  by_cases hps : parsedPrices (step2 (step1 df)) = []
  · rw [hA hps]
    exact hmem2
  · rw [hB hps]
    refine List.mem_filter.mpr ⟨hmem2, ?_⟩
    rw [hidx12, hnull]
    rfl

unseal Rat.add Rat.mul Rat.inv in
theorem step2_drops_exactly_keyword_rows_witness :
    Wf exBatch ∧ exBatch.cols = stdCols ∧
    ((step2 (step1 exBatch)).rows = (step1 exBatch).rows.filter (fun r =>
        prixKeywordFree (getCell r.2 (colIdx (step1 exBatch) "prix"))) ∧
     (∀ r ∈ (step1 exBatch).rows,
        getCell r.2 (colIdx (step1 exBatch) "prix") = Cell.null →
        r ∈ (step2 (step1 exBatch)).rows ∧ r ∈ (step3 (step2 (step1 exBatch))).rows)) :=
  ⟨by decide, rfl,
    (step2_drops_exactly_keyword_rows exBatch (by decide) rfl).1.2,
    (step2_drops_exactly_keyword_rows exBatch (by decide) rfl).2.2.2⟩

/-- C1 (amended): after cleaning, each row's `nom` is the name it carried
after steps 1–3, with `" {k}"` appended when exactly k ≥ 1 earlier surviving
rows share the same raw name (first occurrences unsuffixed, in row order).
The resulting names need not be pairwise distinct: a raw name equal to a
suffixed form of an earlier duplicate collides with it. -/
theorem clean_nom_suffix_by_prior (df : DataFrame) (hwf : Wf df)
    (hcols : df.cols = stdCols) :
    colVals (clean_beautifulsoup_data df) "nom" =
      suffixByPrior (colVals (step3 (step2 (step1 df))) "nom") := by
  have h1cols : (step1 df).cols = stdCols := by rw [step1_cols, hcols]
  have h2cols : (step2 (step1 df)).cols = stdCols := by rw [step2_cols, h1cols]
  have h2wf : Wf (step2 (step1 df)) := Wf_step2 (Wf_step1 hwf)
  obtain ⟨h3c, h3w, h3sub⟩ := step3_props h2wf h2cols
  have h3cols : (step3 (step2 (step1 df))).cols = stdCols := by rw [h3c, h2cols]
  by_cases hemp : dfEmpty df = true
  · unfold dfEmpty at hemp
    rw [hcols] at hemp
    simp [stdCols] at hemp
    unfold clean_beautifulsoup_data
    rw [if_pos (by unfold dfEmpty; rw [hcols, hemp]; rfl)]
    have hd3 : (step3 (step2 (step1 df))).rows = [] := by
      rw [List.eq_nil_iff_forall_not_mem]
      intro r hr
      have := step1_subset r (step2_subset r (h3sub r hr))
      rw [hemp] at this
      cases this
    have hl : colVals df "nom" = [] := by
      unfold colVals
      rw [hemp]
      rfl
    have hr3 : colVals (step3 (step2 (step1 df))) "nom" = [] := by
      unfold colVals
      rw [hd3]
      rfl
    rw [hl, hr3]
    rfl
  · have hnom3 : hasCol (step3 (step2 (step1 df))) "nom" = true := by
      show (step3 (step2 (step1 df))).cols.contains "nom" = true
      rw [h3cols]
      rfl
    have h4cols : (step4 (step3 (step2 (step1 df)))).cols = stdCols := by
      rw [step4_cols hnom3, h3cols]
    have hlt3 : colIdx (step3 (step2 (step1 df))) "nom" <
        (step3 (step2 (step1 df))).cols.length := by
      have h0 : colIdx (step3 (step2 (step1 df))) "nom" = 0 := by
        unfold colIdx
        rw [h3cols]
        rfl
      rw [h0, h3cols]
      decide
    unfold clean_beautifulsoup_data
    rw [if_neg hemp]
    unfold step5
    rw [projectCols_std (hasCol_std h4cols), colVals_resetIndex, colVals_selectCols_nom,
      colVals_step4 h3w hnom3 hlt3, dedupNames_eq_suffixByPrior]

unseal Rat.add Rat.mul Rat.inv in
theorem clean_nom_suffix_by_prior_witness :
    Wf exDedup ∧ exDedup.cols = stdCols ∧
    colVals (clean_beautifulsoup_data exDedup) "nom" =
      suffixByPrior (colVals (step3 (step2 (step1 exDedup))) "nom") :=
  ⟨by decide, rfl, clean_nom_suffix_by_prior exDedup (by decide) rfl⟩

unseal Rat.add Rat.mul Rat.inv in
/-- C1 (counterexample): on the batch `exDupCollide`, whose raw names are
`["Chien", "Chien", "Chien 1"]` and whose rows all pass the other filters,
the cleaned `nom` column is `["Chien", "Chien 1", "Chien 1"]` — the names
are not pairwise distinct, contradicting the claimed uniqueness. -/
theorem clean_nom_not_unique_counterexample :
    colVals (clean_beautifulsoup_data exDupCollide) "nom" =
      [Cell.str "Chien", Cell.str "Chien 1", Cell.str "Chien 1"] ∧
    ¬ (colVals (clean_beautifulsoup_data exDupCollide) "nom").Nodup := by
  constructor
  · decide
  · decide

unseal Rat.add Rat.mul Rat.inv in
/-- C6: on input names `["Chien", "Chien", "Chat", "Chien"]` (all four rows
passing the name, keyword and outlier filters), the cleaned output's names
are exactly `["Chien", "Chien 1", "Chat", "Chien 2"]`, in order. -/
theorem clean_dedup_example :
    colVals (clean_beautifulsoup_data exDedup) "nom" =
      [Cell.str "Chien", Cell.str "Chien 1", Cell.str "Chat", Cell.str "Chien 2"] := by
  decide

/-- C5: the cleaner is the identity on an already-clean table: a well-formed
four-column frame with a dense 0-based index, nonempty string names that are
pairwise distinct, price texts free of the "price on request" keywords, and
no parsed price strictly below half the mean of the table's parsed prices. -/
theorem clean_idempotent_on_clean_tables (df : DataFrame)
    (hwf : Wf df) (hcols : df.cols = stdCols)
    (hidx : df.rows.map Prod.fst = List.range df.rows.length)
    (hnom : ∀ r ∈ df.rows, nomOkCell (getCell r.2 (colIdx df "nom")) = true)
    (hkw : ∀ r ∈ df.rows, prixKeywordFree (getCell r.2 (colIdx df "prix")) = true)
    (hdup : (colVals df "nom").Nodup)
    (hout : ∀ r ∈ df.rows,
      keepOutlier (parsedPrices df) (parsePrixCell (getCell r.2 (colIdx df "prix"))) = true) :
    clean_beautifulsoup_data df = df := by
  unfold clean_beautifulsoup_data
  by_cases hemp : dfEmpty df = true
  · rw [if_pos hemp]
  · rw [if_neg hemp]
    have hnomcol : hasCol df "nom" = true := hasCol_std hcols "nom" (by decide)
    have hprixcol : hasCol df "prix" = true := hasCol_std hcols "prix" (by decide)
    have h1 : step1 df = df := by
      rw [step1_rows hnomcol]
      refine DataFrame.ext rfl ?_
      exact List.filter_eq_self.mpr hnom
    have h2 : step2 df = df := by
      rw [step2_rows hprixcol]
      refine DataFrame.ext rfl ?_
      exact List.filter_eq_self.mpr hkw
    have h3 : step3 df = df := by
      obtain ⟨hA, hB⟩ := step3_char df hwf hcols
      by_cases hps : parsedPrices df = []
      · exact hA hps
      · rw [hB hps]
        refine DataFrame.ext rfl ?_
        exact List.filter_eq_self.mpr hout
    have hlt : colIdx df "nom" < df.cols.length := by
      have h0 : colIdx df "nom" = 0 := by
        unfold colIdx
        rw [hcols]
        rfl
      rw [h0, hcols]
      decide
    have h4 : step4 df = df := by
      rw [step4_eq hnomcol, dedupNames_of_nodup hdup]
      exact setCol_self hnomcol hwf hlt
    have h5 : step5 df = df := by
      unfold step5
      rw [projectCols_std (hasCol_std hcols), selectCols_std_self hcols hwf]
      exact resetIndex_self hidx
    rw [h1, h2, h3, h4, h5]

unseal Rat.add Rat.mul Rat.inv in
theorem clean_idempotent_on_clean_tables_witness :
    Wf exClean ∧ exClean.cols = stdCols ∧
    exClean.rows.map Prod.fst = List.range exClean.rows.length ∧
    (colVals exClean "nom").Nodup ∧
    (∀ r ∈ exClean.rows,
      keepOutlier (parsedPrices exClean)
        (parsePrixCell (getCell r.2 (colIdx exClean "prix"))) = true) ∧
    clean_beautifulsoup_data exClean = exClean :=
  ⟨by decide, rfl, by decide, by decide, by decide,
    clean_idempotent_on_clean_tables exClean (by decide) rfl (by decide) (by decide)
      (by decide) (by decide) (by decide)⟩

theorem mem_eraseIdx_of_ne {α : Type} {l : List α} {c b : α} :
    ∀ {i : Nat}, c ∈ l → l[i]? = some b → ¬ c = b → c ∈ l.eraseIdx i := by
  induction l with
  | nil => intro i hcm _ _; cases hcm
  | cons a t ih =>
    intro i hcm hib hne
    cases i with
    | zero =>
      simp only [List.getElem?_cons_zero, Option.some.injEq] at hib
      rcases List.mem_cons.mp hcm with rfl | hct
      · exact absurd hib hne
      · simpa [List.eraseIdx_cons_zero] using hct
    | succ n =>
      simp only [List.getElem?_cons_succ] at hib
      rw [List.eraseIdx_cons_succ]
      rcases List.mem_cons.mp hcm with rfl | hct
      · exact List.mem_cons_self _ _
      · exact List.mem_cons_of_mem _ (ih hct hib hne)

theorem dropCol_hasCol {X : DataFrame} {c : String}
    (hpn : "prix_num" ∈ X.cols) (hcm : c ∈ X.cols) (hne : ¬ c = "prix_num") :
    hasCol (dropCol X "prix_num") c = true := by
  have hpncol : hasCol X "prix_num" = true := by simpa [hasCol] using hpn
  rw [dropCol_rows _ _ hpncol]
  show (X.cols.eraseIdx (colIdx X "prix_num")).contains c = true
  have hlt : X.cols.findIdx (· == "prix_num") < X.cols.length :=
    List.findIdx_lt_length_of_exists ⟨"prix_num", hpn, by simp⟩
  have hget : X.cols[X.cols.findIdx (· == "prix_num")]? =
      some X.cols[X.cols.findIdx (· == "prix_num")] :=
    List.getElem?_eq_getElem hlt
  have heq : X.cols[X.cols.findIdx (· == "prix_num")] = "prix_num" := by
    simpa using List.findIdx_of_getElem?_eq_some hget
  rw [heq] at hget
  have hmem : c ∈ X.cols.eraseIdx (colIdx X "prix_num") :=
    mem_eraseIdx_of_ne hcm hget hne
  simpa [hasCol] using hmem

theorem hasCol_step3 {d : DataFrame} {c : String} (hne : ¬ c = "prix_num")
    (h : hasCol d c = true) : hasCol (step3 d) c = true := by
  have hcm : c ∈ d.cols := by simpa [hasCol] using h
  unfold step3
  split
  case isTrue hguard =>
    have hXcols : (if !(validPrices (addPrixNum d)).isEmpty
        then filterOutliers (addPrixNum d) else addPrixNum d).cols
        = (addPrixNum d).cols := by
      split
      · rw [filterOutliers_rows]
      · rfl
    by_cases hpn : hasCol d "prix_num" = true
    · -- a pre-existing prix_num column is overwritten in place, then dropped
      have hd1 : (addPrixNum d).cols = d.cols := by
        unfold addPrixNum setCol
        rw [if_pos hpn]
      refine dropCol_hasCol ?_ ?_ hne
      · rw [hXcols, hd1]
        simpa [hasCol] using hpn
      · rw [hXcols, hd1]
        exact hcm
    · -- otherwise prix_num is appended as the last column, then dropped
      have hd1 : (addPrixNum d).cols = d.cols ++ ["prix_num"] := by
        unfold addPrixNum setCol
        rw [if_neg hpn]
      refine dropCol_hasCol ?_ ?_ hne
      · rw [hXcols, hd1]
        exact List.mem_append_right _ (by simp)
      · rw [hXcols, hd1]
        exact List.mem_append_left _ hcm
  case isFalse => exact h

/-- C9 (amended): for every input frame with at least one row whose columns
include the four pipeline columns, the cleaned frame has exactly the columns
`nom, prix, adresse, image_lien` in that order — any other column, including
a pre-existing `prix_num`, is dropped — and its row index is the dense
0-based sequence `0..n-1`.  (The empty frame is returned unchanged, columns
included, so the original unconditional claim fails on it.) -/
theorem clean_output_columns_and_index (df : DataFrame) (hne : df.rows ≠ [])
    (hsub : ∀ c ∈ stdCols, hasCol df c = true) :
    (clean_beautifulsoup_data df).cols = stdCols ∧
    (clean_beautifulsoup_data df).rows.map Prod.fst =
      List.range (clean_beautifulsoup_data df).rows.length := by
  have hemp : dfEmpty df = false := by
    unfold dfEmpty
    have h1 : df.rows.isEmpty = false := by
      cases hrw : df.rows
      · exact absurd hrw hne
      · rfl
    have h2 : df.cols.isEmpty = false := by
      have hn := hsub "nom" (by decide)
      cases hcl : df.cols
      · rw [show hasCol df "nom" = df.cols.contains "nom" from rfl, hcl] at hn
        cases hn
      · rfl
    rw [h1, h2]
    rfl
  unfold clean_beautifulsoup_data
  rw [hemp]
  simp only [Bool.false_eq_true, if_false]
  have h2has : ∀ c ∈ stdCols, hasCol (step2 (step1 df)) c = true := by
    intro c hc
    show (step2 (step1 df)).cols.contains c = true
    rw [step2_cols, step1_cols]
    exact hsub c hc
  have h3has : ∀ c ∈ stdCols, hasCol (step3 (step2 (step1 df))) c = true := by
    intro c hc
    refine hasCol_step3 ?_ (h2has c hc)
    fin_cases hc <;> decide
  have hnom3 : hasCol (step3 (step2 (step1 df))) "nom" = true :=
    h3has "nom" (by decide)
  have h4has : ∀ c ∈ stdCols, hasCol (step4 (step3 (step2 (step1 df)))) c = true := by
    intro c hc
    show (step4 (step3 (step2 (step1 df)))).cols.contains c = true
    rw [step4_cols hnom3]
    exact h3has c hc
  constructor
  · unfold step5
    rw [projectCols_std h4has]
    rfl
  · unfold step5
    exact resetIndex_fst _

unseal Rat.add Rat.mul Rat.inv in
theorem clean_output_columns_and_index_witness :
    exExtraPrixNum.rows ≠ [] ∧
    (∀ c ∈ stdCols, hasCol exExtraPrixNum c = true) ∧
    ((clean_beautifulsoup_data exExtraPrixNum).cols = stdCols ∧
     (clean_beautifulsoup_data exExtraPrixNum).rows.map Prod.fst =
       List.range (clean_beautifulsoup_data exExtraPrixNum).rows.length) :=
  ⟨by decide, by decide,
    clean_output_columns_and_index exExtraPrixNum (by decide) (by decide)⟩

/-- C9 (counterexample): an empty frame carrying an extra `notes` column is
returned unchanged by the cleaner, so the output does not have exactly the
four pipeline columns. -/
theorem clean_keeps_extra_columns_on_empty_counterexample :
    clean_beautifulsoup_data exEmptyExtra = exEmptyExtra ∧
    (clean_beautifulsoup_data exEmptyExtra).cols ≠ stdCols := by
  constructor
  · rfl
  · decide

/-! ## Claims about the scraper -/

/-- C3 (amended): the three detail-page field extractions run sequentially
inside one `try` block.  When no lookup throws, missing nodes are tolerated
independently (each missing field is null, the others are still extracted);
but if any of the three lookups throws, the whole item extraction fails with
the exception — no partial item with the remaining fields is produced. -/
theorem extractFields_throw_aborts_item (p : DetailPage) :
    extractFields p =
      if p.nomLookup = Lookup.throws ∨ p.prixLookup = Lookup.throws ∨
          p.adresseLookup = Lookup.throws
      then Except.error ()
      else Except.ok (extractFieldsIsolated p) := by
  obtain ⟨n, pr, ad⟩ := p
  cases n <;> cases pr <;> cases ad <;> rfl

/-- C3 (counterexample): on a detail page whose name and address lookups
succeed but whose price lookup throws, the extraction of the claim's
"other two" fields does not happen: the whole extraction errors and the item
is skipped, although the isolated per-field reading would have produced an
item with a name. -/
theorem extract_throwing_prix_skips_item_counterexample :
    extractFields exPageThrow = Except.error () ∧
    extractFieldsIsolated exPageThrow =
      ⟨some "Chien", none, some "Dakar"⟩ ∧
    processContainer exWorldThrow exContainer = none :=
  ⟨rfl, rfl, rfl⟩

/-- C4: an individual item whose detail fetch or field extraction fails is
skipped silently: given a listing page whose containers are
`l1 ++ c :: l2` where `c`'s detail step fails, `scrape_page` still returns
`Except.ok` (the exception does not propagate), and the result consists of
exactly the items successfully extracted from the other containers. -/
theorem scrape_page_item_failure_isolated (w : World) (url : String)
    (l1 : List Container) (c : Container) (l2 : List Container) (h : String)
    (hlist : w.listFetch url = Except.ok (l1 ++ c :: l2))
    (hhref : c.href = some h)
    (hfail : (do
        let page ← w.detailFetch (origin ++ h)
        extractFields page : Except Unit RawItem) = Except.error ()) :
    (scrape_page w url).1 = Except.ok
      (l1.filterMap (processContainer w) ++ l2.filterMap (processContainer w)) := by
  have hc : processContainer w c = none := by
    unfold processContainer
    rw [hhref]
    dsimp only
    rw [hfail]
  have hemp : (l1 ++ c :: l2).isEmpty = false := by
    cases l1 <;> rfl
  unfold scrape_page
  rw [hlist]
  dsimp only
  rw [hemp]
  simp only [Bool.false_eq_true, if_false]
  simp [List.filterMap_append, List.filterMap_cons, hc]

theorem scrape_page_item_failure_isolated_witness :
    exWorldBatch.listFetch "L" = Except.ok ([contA] ++ contB :: [contC]) ∧
    contB.href = some "/b" ∧
    ((do
        let page ← exWorldBatch.detailFetch (origin ++ "/b")
        extractFields page : Except Unit RawItem) = Except.error ()) ∧
    (scrape_page exWorldBatch "L").1 = Except.ok
      ([contA].filterMap (processContainer exWorldBatch) ++
        [contC].filterMap (processContainer exWorldBatch)) :=
  ⟨rfl, rfl, rfl,
    scrape_page_item_failure_isolated exWorldBatch "L" [contA] contB [contC] "/b"
      rfl rfl rfl⟩

/-- C8: for every category string outside the four known identifiers and any
page count, `scrape_category` fails with the invalid-category error and its
request log is empty: no network call is performed before raising. -/
theorem scrape_category_invalid_no_request (w : World) (cat : String) (n : Nat)
    (h : cat ∉ ["chiens", "moutons", "poules-lapins-et-pigeons", "autres-animaux"]) :
    scrape_category w cat n =
      (Except.error (ScrapeError.invalidCategory cat), []) := by
  simp only [List.mem_cons, List.not_mem_nil, or_false, not_or] at h
  obtain ⟨h1, h2, h3, h4⟩ := h
  have b1 : (cat == "chiens") = false := by simpa using h1
  have b2 : (cat == "moutons") = false := by simpa using h2
  have b3 : (cat == "poules-lapins-et-pigeons") = false := by simpa using h3
  have b4 : (cat == "autres-animaux") = false := by simpa using h4
  have hlk : CATEGORIES.lookup cat = none := by
    simp [CATEGORIES, List.lookup, b1, b2, b3, b4]
  unfold scrape_category
  rw [hlk]

theorem scrape_category_invalid_no_request_witness :
    "invalid-slug" ∉ ["chiens", "moutons", "poules-lapins-et-pigeons", "autres-animaux"] ∧
    scrape_category exWorldEmpty "invalid-slug" 1 =
      (Except.error (ScrapeError.invalidCategory "invalid-slug"), []) :=
  ⟨by decide, scrape_category_invalid_no_request exWorldEmpty "invalid-slug" 1 (by decide)⟩

/-! ## Claims about the store model (frame property) -/

theorem ext_reassign {st : Store} {s : Store × Nat} (f : DataFrame → DataFrame)
    (h : StoreExtends st s) : StoreExtends st (reassign s f) := by
  obtain ⟨⟨t, ht⟩, hr⟩ := h
  refine ⟨⟨t ++ [f (readRef s.1 s.2)], ?_⟩, ?_⟩
  · show s.1 ++ [f (readRef s.1 s.2)] = st ++ (t ++ [f (readRef s.1 s.2)])
    rw [ht, List.append_assoc]
  · show st.length ≤ s.1.length
    rw [ht]
    simp

theorem set_append_right {α : Type} (l1 l2 : List α) (n : Nat) (v : α)
    (h : l1.length ≤ n) : (l1 ++ l2).set n v = l1 ++ l2.set (n - l1.length) v := by
  induction l1 generalizing n with
  | nil => simp
  | cons a t ih =>
    cases n with
    | zero => simp at h
    | succ m =>
      simp only [List.cons_append, List.set_cons_succ, List.length_cons, Nat.succ_sub_succ]
      rw [ih m (Nat.le_of_succ_le_succ h)]

theorem ext_setItem {st : Store} {s : Store × Nat} (f : DataFrame → DataFrame)
    (h : StoreExtends st s) : StoreExtends st (setItem s f) := by
  obtain ⟨⟨t, ht⟩, hr⟩ := h
  refine ⟨⟨t.set (s.2 - st.length) (f (readRef s.1 s.2)), ?_⟩, hr⟩
  show s.1.set s.2 (f (readRef s.1 s.2)) = st ++ t.set (s.2 - st.length) (f (readRef s.1 s.2))
  rw [ht, set_append_right _ _ _ _ hr]

theorem ext_storeStep1 {st : Store} {s : Store × Nat} (h : StoreExtends st s) :
    StoreExtends st (storeStep1 s) := by
  unfold storeStep1
  split
  · exact ext_reassign _ h
  · exact h

theorem ext_storeStep2 {st : Store} {s : Store × Nat} (h : StoreExtends st s) :
    StoreExtends st (storeStep2 s) := by
  unfold storeStep2
  split
  · exact ext_reassign _ h
  · exact h

theorem ext_storeStep3 {st : Store} {s : Store × Nat} (h : StoreExtends st s) :
    StoreExtends st (storeStep3 s) := by
  unfold storeStep3
  split
  · apply ext_reassign
    split
    · exact ext_reassign _ (ext_setItem _ h)
    · exact ext_setItem _ h
  · exact h

theorem ext_storeStep4 {st : Store} {s : Store × Nat} (h : StoreExtends st s) :
    StoreExtends st (storeStep4 s) := by
  unfold storeStep4
  split
  · exact ext_setItem _ h
  · exact h

theorem ext_storeStep5 {st : Store} {s : Store × Nat} (h : StoreExtends st s) :
    StoreExtends st (storeStep5 s) :=
  ext_reassign _ (ext_reassign _ h)

theorem ext_cleanStoreGo {st : Store} {s : Store × Nat} (h : StoreExtends st s) :
    StoreExtends st (cleanStoreGo s) :=
  ext_storeStep5 (ext_storeStep4 (ext_storeStep3 (ext_storeStep2 (ext_storeStep1 h))))

/-- C10: the cleaner never mutates its argument.  In the store model — where
the two column `__setitem__`s mutate in place and every other pandas
operation allocates — the caller's DataFrame object at reference `r` is
bit-for-bit unchanged after `cleanStore` runs, because the cleaner works on
`df.copy()`. -/
theorem cleanStore_preserves_argument (st : Store) (r : Nat) (df : DataFrame)
    (h : st[r]? = some df) :
    (cleanStore st r).1[r]? = some df := by
  have hlt : r < st.length := by
    by_contra hge
    rw [List.getElem?_eq_none (Nat.le_of_not_lt hge)] at h
    cases h
  unfold cleanStore
  dsimp only
  split
  · exact h
  · obtain ⟨⟨t, ht⟩, _⟩ :
        StoreExtends st (cleanStoreGo (allocRef st (readRef st r))) :=
      ext_cleanStoreGo ⟨⟨[readRef st r], rfl⟩, by simp [allocRef]⟩
    rw [ht, List.getElem?_append_left hlt]
    exact h

theorem cleanStore_preserves_argument_witness :
    exStore[0]? = some exBatch ∧ (cleanStore exStore 0).1[0]? = some exBatch :=
  ⟨rfl, cleanStore_preserves_argument exStore 0 exBatch rfl⟩

end Scraping
